import Mathlib

/-!
# Verification of the fully-associative cache simulator (`cache.c`)

Shallow embedding of the cache module.  The cache is a single set of
`numOfLines` lines; each line has an LRU counter (`time`, an `unsigned int`
whose values stay below `numOfLines`, itself an `unsigned int`, so the
increments below never overflow), a valid bit, a 32-bit `tag` field (values
are stored reduced modulo `2 ^ 32`, mirroring the `unsigned int` field of
`struct cache_line`), and a 64-byte block (modelled as `Nat → Nat`; every
write reduces the byte modulo `256`, mirroring `unsigned char`).

The backing memory (`memget`) is an oracle `Nat → Option (Nat → Nat)`:
`some f` means the block-aligned read at that address succeeds and fills
buffer byte `i` with `f i % 256`; `none` means the read fails.

`cacheGet` returns `none` exactly where the C function would dereference the
uninitialized `evictedLine` pointer (no line has `time == numOfLines - 1`),
which cannot happen in states satisfying the recency-permutation invariant.
-/

namespace CacheSim

/-- One cache line: `struct cache_line` of `cache.c` (`time`, `valid`,
`tag`, `cacheBlock[64]`). -/
structure CacheLine where
  time : Nat
  valid : Bool
  tag : Nat
  cacheBlock : Nat → Nat

instance : Inhabited CacheLine := ⟨⟨0, false, 0, fun _ => 0⟩⟩

/-- The block size: `sizeof(((cache_line*)0)->cacheBlock)` is 64 bytes. -/
def sizeOfBlock : Nat := 64

/-- `floor(log2(64))`: the `log2` of the power of two 64 is exact in
floating point, so the C computation yields exactly 6. -/
def offsetBit : Nat := 6

/-- `~(0xffffffffffffffff << offsetBit)` computed on 64-bit words. -/
def offsetMask : Nat := (2 ^ 64 - 1) - ((2 ^ 64 - 1) <<< offsetBit % 2 ^ 64)

/-- `address_decomposer`: split an address into `(offset, tag)` via
`offset = address & offsetMask`, `tag = address >> offsetBit`. -/
def address_decomposer (address : Nat) : Nat × Nat :=
  (address &&& offsetMask, address >>> offsetBit)

/-- `cache_get_byElem`: copy `numOfElem` bytes of `block` into the 8-byte
buffer `valueTemp` starting at index `startLocation`
(`valueTemp[i + startLocation] = block[i]`). -/
def cache_get_byElem (valueTemp block : Nat → Nat)
    (numOfElem startLocation : Nat) : Nat → Nat :=
  fun j =>
    if startLocation ≤ j ∧ j < startLocation + numOfElem then
      block (j - startLocation)
    else valueTemp j

/-- The local `valueTemp[8] = {0,...,0}` buffer of `cache_get`. -/
def zeroBuf : Nat → Nat := fun _ => 0

/-- `reverse_endian`: fold `value = (value << 8) | valueTemp[8 - i - 1]`
over `i = 0..7` on a 64-bit accumulator. -/
def reverse_endian (valueTemp : Nat → Nat) : Nat :=
  (List.range 8).foldl
    (fun value i => ((value <<< 8) ||| valueTemp (8 - i - 1)) % 2 ^ 64) 0

/-- `setLRU`: increment the `time` of every line of the set whose `time` is
below the hit line's `time`, then reset the hit line's `time` to 0.  The
hit line is given by its index `i`. -/
def setLRU (n : Nat) (ls : Nat → CacheLine) (i : Nat) : Nat → CacheLine :=
  fun j =>
    if j < n ∧ (ls j).time < (ls i).time then
      { ls j with time := (ls j).time + 1 }
    else if j = i then { ls j with time := 0 }
    else ls j

/-- First loop of `findEvict`: scan `i = 0..numOfLines-1` and remember the
last line whose `time` equals `numOfLines - 1`; `none` models the
uninitialized `evictedLine` pointer when no line matches. -/
def lastMaxTime (n : Nat) (ls : Nat → CacheLine) : Option Nat :=
  (List.range n).foldl
    (fun acc i => if (ls i).time = n - 1 then some i else acc) none

/-- `findEvict`: pick the victim via `lastMaxTime`, increment every `time`
below the victim's, then set the victim's `tag` (truncated to the 32-bit
field), `valid` and `time`.  Returns the updated set and the victim index. -/
def findEvict (n : Nat) (ls : Nat → CacheLine) (tag : Nat) :
    Option ((Nat → CacheLine) × Nat) :=
  match lastMaxTime n ls with
  | none => none
  | some e =>
    let ls1 : Nat → CacheLine := fun j =>
      if j < n ∧ (ls j).time < (ls e).time then
        { ls j with time := (ls j).time + 1 }
      else ls j
    let ls2 : Nat → CacheLine := fun j =>
      if j = e then
        { ls1 j with tag := tag % 2 ^ 32, valid := true, time := 0 }
      else ls1 j
    some (ls2, e)

/-- `memget(addr, line->cacheBlock, 64)` on success: overwrite the 64 bytes
of line `e`'s block with `f`, each byte reduced modulo 256. -/
def fillBlock (ls : Nat → CacheLine) (e : Nat) (f : Nat → Nat) :
    Nat → CacheLine :=
  fun j =>
    if j = e then
      { ls j with cacheBlock := fun k => if k < 64 then f k % 256 else (ls j).cacheBlock k }
    else ls j

/-- The hit scan of `cache_get`: first index `i < n` with
`line->valid && line->tag == tag`. -/
def findHit (n : Nat) (ls : Nat → CacheLine) (tag : Nat) : Option Nat :=
  (List.range n).find? (fun i => (ls i).valid && (ls i).tag == tag)

/-- `init`: give line `j` the `time` `j`, clear `valid` and `tag`; the block
bytes (arena memory) are left as they are. -/
def initLines (n : Nat) (ls : Nat → CacheLine) : Nat → CacheLine :=
  fun j =>
    if j < n then { ls j with time := j, valid := false, tag := 0 }
    else ls j

/-- Result of one `cache_get` call: the C return value, the out-parameter
(`some` iff `*value` was assigned), the set after the call, and the list of
block addresses passed to `memget`, in call order. -/
structure GetResult where
  ret : Nat
  value : Option Nat
  state : Nat → CacheLine
  memReads : List Nat

/-- `cache_get` on an initialized cache of `n` lines with backing memory
`mem`.  Mirrors the C control flow: the non-crossing branch
(`offset + 8 <= sizeOfBlock`) does hit-scan then evict-and-fill; the
crossing branch does both hit scans first, then the two miss blocks, and
falls through to the final `return 0` after writing `*value`. -/
def cacheGet (n : Nat) (mem : Nat → Option (Nat → Nat))
    (ls : Nat → CacheLine) (address : Nat) : Option GetResult :=
  let offset := (address_decomposer address).1
  let tag := (address_decomposer address).2
  if offset + 8 ≤ sizeOfBlock then
    match findHit n ls tag with
    | some i =>
      let ls1 := setLRU n ls i
      let vt := cache_get_byElem zeroBuf (fun k => (ls1 i).cacheBlock (offset + k)) 8 0
      some { ret := 1, value := some (reverse_endian vt), state := ls1, memReads := [] }
    | none =>
      match findEvict n ls tag with
      | none => none
      | some (ls1, e) =>
        match mem (address - offset) with
        | some f =>
          let ls2 := fillBlock ls1 e f
          let vt := cache_get_byElem zeroBuf (fun k => (ls2 e).cacheBlock (offset + k)) 8 0
          some { ret := 1, value := some (reverse_endian vt), state := ls2,
                 memReads := [address - offset] }
        | none =>
          some { ret := 0, value := none, state := ls1, memReads := [address - offset] }
  else
    let newAddress := (address + (sizeOfBlock - offset)) % 2 ^ 64
    let newOffset := (address_decomposer newAddress).1
    let newTag := (address_decomposer newAddress).2
    match findHit n ls tag with
    | some i1 =>
      let sA := setLRU n ls i1
      let vA := cache_get_byElem zeroBuf (fun k => (sA i1).cacheBlock (offset + k))
        (sizeOfBlock - offset) 0
      match findHit n sA newTag with
      | some i2 =>
        let sB := setLRU n sA i2
        let vB := cache_get_byElem vA (fun k => (sB i2).cacheBlock k)
          (8 - (sizeOfBlock - offset)) (sizeOfBlock - offset)
        some { ret := 0, value := some (reverse_endian vB), state := sB, memReads := [] }
      | none =>
        match findEvict n sA newTag with
        | none => none
        | some (sB, e2) =>
          match mem (newAddress - newOffset) with
          | some f2 =>
            let sC := fillBlock sB e2 f2
            let vB := cache_get_byElem vA (fun k => (sC e2).cacheBlock k)
              (8 - (sizeOfBlock - offset)) (sizeOfBlock - offset)
            some { ret := 0, value := some (reverse_endian vB), state := sC,
                   memReads := [newAddress - newOffset] }
          | none =>
            some { ret := 0, value := none, state := sB,
                   memReads := [newAddress - newOffset] }
    | none =>
      match findHit n ls newTag with
      | some i2 =>
        let sA := setLRU n ls i2
        let vB0 := cache_get_byElem zeroBuf (fun k => (sA i2).cacheBlock k)
          (8 - (sizeOfBlock - offset)) (sizeOfBlock - offset)
        match findEvict n sA tag with
        | none => none
        | some (sB, e1) =>
          match mem (address - offset) with
          | some f1 =>
            let sC := fillBlock sB e1 f1
            let vA := cache_get_byElem vB0 (fun k => (sC e1).cacheBlock (offset + k))
              (sizeOfBlock - offset) 0
            some { ret := 0, value := some (reverse_endian vA), state := sC,
                   memReads := [address - offset] }
          | none =>
            some { ret := 0, value := none, state := sB, memReads := [address - offset] }
      | none =>
        match findEvict n ls tag with
        | none => none
        | some (sB, e1) =>
          match mem (address - offset) with
          | some f1 =>
            let sC := fillBlock sB e1 f1
            let vA := cache_get_byElem zeroBuf (fun k => (sC e1).cacheBlock (offset + k))
              (sizeOfBlock - offset) 0
            match findEvict n sC newTag with
            | none => none
            | some (sD, e2) =>
              match mem (newAddress - newOffset) with
              | some f2 =>
                let sE := fillBlock sD e2 f2
                let vB := cache_get_byElem vA (fun k => (sE e2).cacheBlock k)
                  (8 - (sizeOfBlock - offset)) (sizeOfBlock - offset)
                some { ret := 0, value := some (reverse_endian vB), state := sE,
                       memReads := [address - offset, newAddress - newOffset] }
              | none =>
                some { ret := 0, value := none, state := sD,
                       memReads := [address - offset, newAddress - newOffset] }
          | none =>
            some { ret := 0, value := none, state := sB, memReads := [address - offset] }

/-- The recency invariant: the `time` values of the `n` lines of the set
are a permutation of `{0, ..., n-1}` — bounded, injective, surjective. -/
def timesPermutation (n : Nat) (ls : Nat → CacheLine) : Prop :=
  (∀ i, i < n → (ls i).time < n) ∧
  (∀ i, i < n → ∀ j, j < n → (ls i).time = (ls j).time → i = j) ∧
  (∀ t, t < n → ∃ i, i < n ∧ (ls i).time = t)

instance (n : Nat) (ls : Nat → CacheLine) : Decidable (timesPermutation n ls) := by
  unfold timesPermutation; infer_instance

/-- States reachable by lazily initializing an arbitrary arena and running
any sequence of `cache_get` calls (each with an arbitrary backing memory
and address) that do not hit the undefined-behavior case. -/
inductive Reachable (n : Nat) : (Nat → CacheLine) → Prop
  | init (ls0 : Nat → CacheLine) : Reachable n (initLines n ls0)
  | step (ls : Nat → CacheLine) (mem : Nat → Option (Nat → Nat)) (address : Nat)
      (r : GetResult) : Reachable n ls → cacheGet n mem ls address = some r →
      Reachable n r.state

/-- The recency update performed on the `time` value `t` of a non-selected
line when the selected line's old `time` is `ti`. -/
def bump (ti t : Nat) : Nat :=
  if t < ti then t + 1 else if t = ti then 0 else t

/-! ## Basic lemmas about the embedded operations -/

theorem offsetMask_eq : offsetMask = 63 := by decide

theorem address_decomposer_eq (a : Nat) : address_decomposer a = (a % 64, a / 64) := by
  unfold address_decomposer
  rw [offsetMask_eq]
  refine Prod.ext ?_ ?_
  · exact Nat.and_pow_two_sub_one_eq_mod a 6
  · exact Nat.shiftRight_eq_div_pow a 6

theorem bump_inj (ti a b : Nat) (h : bump ti a = bump ti b) : a = b := by
  unfold bump at h; split_ifs at h <;> omega

theorem bump_lt (ti t n : Nat) (hti : ti < n) (ht : t < n) : bump ti t < n := by
  unfold bump; split_ifs <;> omega

theorem bump_surj (ti t n : Nat) (hti : ti < n) (ht : t < n) :
    ∃ s, s < n ∧ bump ti s = t := by
  by_cases h0 : t = 0
  · exact ⟨ti, hti, by unfold bump; split_ifs <;> omega⟩
  · by_cases h1 : t ≤ ti
    · exact ⟨t - 1, by omega, by unfold bump; split_ifs <;> omega⟩
    · exact ⟨t, ht, by unfold bump; split_ifs <;> omega⟩

theorem setLRU_time (n : Nat) (ls : Nat → CacheLine) (i j : Nat) :
    ((setLRU n ls i) j).time =
      if j < n ∧ (ls j).time < (ls i).time then (ls j).time + 1
      else if j = i then 0 else (ls j).time := by
  unfold setLRU; split_ifs <;> rfl

theorem setLRU_valid (n : Nat) (ls : Nat → CacheLine) (i j : Nat) :
    ((setLRU n ls i) j).valid = (ls j).valid := by
  unfold setLRU; split_ifs <;> rfl

theorem setLRU_tag (n : Nat) (ls : Nat → CacheLine) (i j : Nat) :
    ((setLRU n ls i) j).tag = (ls j).tag := by
  unfold setLRU; split_ifs <;> rfl

theorem setLRU_cacheBlock (n : Nat) (ls : Nat → CacheLine) (i j : Nat) :
    ((setLRU n ls i) j).cacheBlock = (ls j).cacheBlock := by
  unfold setLRU; split_ifs <;> rfl

theorem setLRU_time_eq_bump (n : Nat) (ls : Nat → CacheLine) (i : Nat)
    (hperm : timesPermutation n ls) (hi : i < n) (j : Nat) (hj : j < n) :
    ((setLRU n ls i) j).time = bump (ls i).time (ls j).time := by
  obtain ⟨hb, hinj, _⟩ := hperm
  rw [setLRU_time]; unfold bump
  by_cases hji : j = i
  · subst hji; split_ifs <;> omega
  · have hne : (ls j).time ≠ (ls i).time := fun h => hji (hinj j hj i hi h)
    split_ifs <;> omega

theorem timesPermutation_setLRU (n : Nat) (ls : Nat → CacheLine) (i : Nat)
    (hperm : timesPermutation n ls) (hi : i < n) :
    timesPermutation n (setLRU n ls i) := by
  obtain ⟨hb, hinj, hsurj⟩ := hperm
  have hbump := setLRU_time_eq_bump n ls i ⟨hb, hinj, hsurj⟩ hi
  refine ⟨?_, ?_, ?_⟩
  · intro j hj; rw [hbump j hj]; exact bump_lt _ _ _ (hb i hi) (hb j hj)
  · intro j hj k hk heq
    rw [hbump j hj, hbump k hk] at heq
    exact hinj j hj k hk (bump_inj _ _ _ heq)
  · intro t ht
    obtain ⟨s, hs, hbs⟩ := bump_surj (ls i).time t n (hb i hi) ht
    obtain ⟨j, hj, hjs⟩ := hsurj s hs
    exact ⟨j, hj, by rw [hbump j hj, hjs, hbs]⟩

theorem timesPermutation_congr (n : Nat) (ls ls' : Nat → CacheLine)
    (h : ∀ j, j < n → (ls' j).time = (ls j).time)
    (hperm : timesPermutation n ls) : timesPermutation n ls' := by
  obtain ⟨hb, hinj, hsurj⟩ := hperm
  refine ⟨fun i hi => by rw [h i hi]; exact hb i hi,
    fun i hi j hj heq => hinj i hi j hj (by rw [← h i hi, ← h j hj]; exact heq),
    fun t ht => ?_⟩
  obtain ⟨i, hi, hit⟩ := hsurj t ht
  exact ⟨i, hi, by rw [h i hi]; exact hit⟩

theorem foldl_lastMatch {p : Nat → Prop} [DecidablePred p] (l : List Nat)
    (acc : Option Nat) (e : Nat)
    (h : l.foldl (fun a i => if p i then some i else a) acc = some e) :
    (e ∈ l ∧ p e) ∨ acc = some e := by
  induction l generalizing acc with
  | nil => right; exact h
  | cons x xs ih =>
    simp only [List.foldl_cons] at h
    rcases ih _ h with ⟨hmem, hp⟩ | hacc
    · exact Or.inl ⟨List.mem_cons_of_mem _ hmem, hp⟩
    · by_cases hx : p x
      · rw [if_pos hx] at hacc
        injection hacc with h'
        exact Or.inl ⟨h' ▸ List.mem_cons_self x xs, h' ▸ hx⟩
      · rw [if_neg hx] at hacc
        exact Or.inr hacc

theorem foldl_lastMatch_none {p : Nat → Prop} [DecidablePred p] (l : List Nat)
    (acc : Option Nat)
    (h : l.foldl (fun a i => if p i then some i else a) acc = none) :
    acc = none ∧ ∀ x ∈ l, ¬ p x := by
  induction l generalizing acc with
  | nil => exact ⟨h, fun x hx => absurd hx (List.not_mem_nil x)⟩
  | cons y ys ih =>
    simp only [List.foldl_cons] at h
    obtain ⟨hacc, hys⟩ := ih _ h
    by_cases hy : p y
    · rw [if_pos hy] at hacc; cases hacc
    · rw [if_neg hy] at hacc
      refine ⟨hacc, fun x hx => ?_⟩
      rcases List.mem_cons.mp hx with rfl | hm
      · exact hy
      · exact hys x hm

theorem lastMaxTime_spec (n : Nat) (ls : Nat → CacheLine) (e : Nat)
    (h : lastMaxTime n ls = some e) : e < n ∧ (ls e).time = n - 1 := by
  unfold lastMaxTime at h
  rcases foldl_lastMatch _ _ _ h with ⟨hmem, hp⟩ | hacc
  · exact ⟨List.mem_range.mp hmem, hp⟩
  · cases hacc

theorem lastMaxTime_isSome (n : Nat) (ls : Nat → CacheLine)
    (i : Nat) (hi : i < n) (ht : (ls i).time = n - 1) :
    ∃ e, lastMaxTime n ls = some e := by
  rcases hcase : lastMaxTime n ls with _ | e
  · unfold lastMaxTime at hcase
    obtain ⟨-, hall⟩ := foldl_lastMatch_none _ _ hcase
    exact absurd ht (hall i (List.mem_range.mpr hi))
  · exact ⟨e, rfl⟩

theorem findEvict_some (n : Nat) (ls : Nat → CacheLine) (tag : Nat)
    (hperm : timesPermutation n ls) (hn : 0 < n) :
    ∃ ls' e, findEvict n ls tag = some (ls', e) ∧ (ls e).time = n - 1 := by
  obtain ⟨_, _, hsurj⟩ := hperm
  obtain ⟨i, hi, hit⟩ := hsurj (n - 1) (by omega)
  obtain ⟨e, he⟩ := lastMaxTime_isSome n ls i hi hit
  have h2 := (lastMaxTime_spec n ls e he).2
  unfold findEvict
  rw [he]
  exact ⟨_, e, rfl, h2⟩

theorem findEvict_dest (n : Nat) (ls : Nat → CacheLine) (tag : Nat)
    (ls' : Nat → CacheLine) (e : Nat) (h : findEvict n ls tag = some (ls', e)) :
    lastMaxTime n ls = some e ∧
    ls' e = { time := 0, valid := true, tag := tag % 2 ^ 32,
              cacheBlock := (ls e).cacheBlock } ∧
    (∀ j, j ≠ e →
      ls' j = if j < n ∧ (ls j).time < (ls e).time then
        { ls j with time := (ls j).time + 1 } else ls j) := by
  unfold findEvict at h
  rcases hl : lastMaxTime n ls with _ | e'
  · rw [hl] at h; cases h
  · rw [hl] at h
    rw [Option.some_inj, Prod.mk.injEq] at h
    obtain ⟨h1, rfl⟩ := h
    subst h1
    refine ⟨rfl, ?_, fun j hj => ?_⟩
    · show (if e' = e' then _ else _) = _
      rw [if_pos rfl]
      have hc : ¬ (e' < n ∧ (ls e').time < (ls e').time) :=
        fun hh => Nat.lt_irrefl _ hh.2
      show ({ (if e' < n ∧ (ls e').time < (ls e').time then
        { ls e' with time := (ls e').time + 1 } else ls e') with
          tag := tag % 2 ^ 32, valid := true, time := 0 } : CacheLine) = _
      rw [if_neg hc]
    · show (if j = e' then _ else _) = _
      rw [if_neg hj]

theorem findEvict_time_eq_setLRU (n : Nat) (ls : Nat → CacheLine) (tag : Nat)
    (ls' : Nat → CacheLine) (e : Nat) (h : findEvict n ls tag = some (ls', e))
    (j : Nat) : (ls' j).time = ((setLRU n ls e) j).time := by
  obtain ⟨-, he, hother⟩ := findEvict_dest n ls tag ls' e h
  rw [setLRU_time]
  by_cases hj : j = e
  · subst hj
    rw [he]
    have hc : ¬ (j < n ∧ (ls j).time < (ls j).time) :=
      fun hh => Nat.lt_irrefl _ hh.2
    rw [if_neg hc, if_pos rfl]
  · rw [hother j hj]
    by_cases hc : j < n ∧ (ls j).time < (ls e).time
    · rw [if_pos hc, if_pos hc]
    · rw [if_neg hc, if_neg hc, if_neg hj]

theorem findEvict_frame (n : Nat) (ls : Nat → CacheLine) (tag : Nat)
    (ls' : Nat → CacheLine) (e : Nat) (h : findEvict n ls tag = some (ls', e))
    (j : Nat) (hj : j ≠ e) :
    (ls' j).valid = (ls j).valid ∧ (ls' j).tag = (ls j).tag ∧
    (ls' j).cacheBlock = (ls j).cacheBlock := by
  obtain ⟨_, _, hother⟩ := findEvict_dest n ls tag ls' e h
  rw [hother j hj]
  split_ifs <;> exact ⟨rfl, rfl, rfl⟩

theorem timesPermutation_findEvict (n : Nat) (ls : Nat → CacheLine) (tag : Nat)
    (ls' : Nat → CacheLine) (e : Nat) (h : findEvict n ls tag = some (ls', e))
    (hperm : timesPermutation n ls) : timesPermutation n ls' := by
  obtain ⟨hl, _, _⟩ := findEvict_dest n ls tag ls' e h
  have he : e < n := (lastMaxTime_spec n ls e hl).1
  exact timesPermutation_congr n (setLRU n ls e) ls'
    (fun j _ => findEvict_time_eq_setLRU n ls tag ls' e h j)
    (timesPermutation_setLRU n ls e hperm he)

theorem fillBlock_time (ls : Nat → CacheLine) (e : Nat) (f : Nat → Nat) (j : Nat) :
    ((fillBlock ls e f) j).time = (ls j).time := by
  unfold fillBlock; split_ifs <;> rfl

theorem fillBlock_valid (ls : Nat → CacheLine) (e : Nat) (f : Nat → Nat) (j : Nat) :
    ((fillBlock ls e f) j).valid = (ls j).valid := by
  unfold fillBlock; split_ifs <;> rfl

theorem fillBlock_tag (ls : Nat → CacheLine) (e : Nat) (f : Nat → Nat) (j : Nat) :
    ((fillBlock ls e f) j).tag = (ls j).tag := by
  unfold fillBlock; split_ifs <;> rfl

theorem fillBlock_cacheBlock_self (ls : Nat → CacheLine) (e : Nat) (f : Nat → Nat)
    (k : Nat) (hk : k < 64) : ((fillBlock ls e f) e).cacheBlock k = f k % 256 := by
  unfold fillBlock
  rw [if_pos rfl]
  exact if_pos hk

theorem timesPermutation_fillBlock (n : Nat) (ls : Nat → CacheLine) (e : Nat)
    (f : Nat → Nat) (hperm : timesPermutation n ls) :
    timesPermutation n (fillBlock ls e f) :=
  timesPermutation_congr n ls _ (fun j _ => fillBlock_time ls e f j) hperm

theorem findHit_some (n : Nat) (ls : Nat → CacheLine) (tag : Nat) (i : Nat)
    (h : findHit n ls tag = some i) :
    i < n ∧ (ls i).valid = true ∧ (ls i).tag = tag := by
  unfold findHit at h
  have hp := List.find?_some h
  have hmem := List.mem_of_find?_eq_some h
  simp only [Bool.and_eq_true, beq_iff_eq] at hp
  exact ⟨List.mem_range.mp hmem, hp.1, hp.2⟩

theorem findHit_none (n : Nat) (ls : Nat → CacheLine) (tag : Nat)
    (h : findHit n ls tag = none) (i : Nat) (hi : i < n) :
    ¬ ((ls i).valid = true ∧ (ls i).tag = tag) := by
  unfold findHit at h
  have := List.find?_eq_none.mp h i (List.mem_range.mpr hi)
  simp only [Bool.and_eq_true, beq_iff_eq] at this
  exact this

theorem findHit_isSome (n : Nat) (ls : Nat → CacheLine) (tag : Nat) (i : Nat)
    (hi : i < n) (hv : (ls i).valid = true) (ht : (ls i).tag = tag) :
    ∃ j, findHit n ls tag = some j := by
  rcases hcase : findHit n ls tag with _ | j
  · exact absurd ⟨hv, ht⟩ (findHit_none n ls tag hcase i hi)
  · exact ⟨j, rfl⟩

theorem timesPermutation_initLines (n : Nat) (ls0 : Nat → CacheLine) :
    timesPermutation n (initLines n ls0) := by
  refine ⟨fun i hi => ?_, fun i hi j hj heq => ?_, fun t ht => ⟨t, ht, ?_⟩⟩
  · unfold initLines; rw [if_pos hi]; exact hi
  · unfold initLines at heq; rw [if_pos hi, if_pos hj] at heq; exact heq
  · unfold initLines; rw [if_pos ht]

theorem timesPermutation_cacheGet (n : Nat) (mem : Nat → Option (Nat → Nat))
    (ls : Nat → CacheLine) (address : Nat) (r : GetResult)
    (h : cacheGet n mem ls address = some r)
    (hperm : timesPermutation n ls) : timesPermutation n r.state := by
  simp only [cacheGet] at h
  split at h
  · -- non-crossing branch
    split at h
    case _ i heq =>
      rw [Option.some_inj] at h; subst h
      exact timesPermutation_setLRU n ls i hperm (findHit_some n ls _ i heq).1
    case _ heq =>
      split at h
      · cases h
      case _ ls1 e heq2 =>
        have hp1 := timesPermutation_findEvict n ls _ ls1 e heq2 hperm
        split at h
        · rw [Option.some_inj] at h; subst h
          exact timesPermutation_fillBlock n ls1 e _ hp1
        · rw [Option.some_inj] at h; subst h
          exact hp1
  · -- crossing branch
    split at h
    case _ i1 heq1 =>
      have hp1 := timesPermutation_setLRU n ls i1 hperm (findHit_some n ls _ i1 heq1).1
      split at h
      case _ i2 heq2 =>
        rw [Option.some_inj] at h; subst h
        exact timesPermutation_setLRU n _ i2 hp1 (findHit_some n _ _ i2 heq2).1
      case _ heq2 =>
        split at h
        · cases h
        case _ sB e2 heq3 =>
          have hp2 := timesPermutation_findEvict n _ _ sB e2 heq3 hp1
          split at h
          · rw [Option.some_inj] at h; subst h
            exact timesPermutation_fillBlock n sB e2 _ hp2
          · rw [Option.some_inj] at h; subst h
            exact hp2
    case _ heq1 =>
      split at h
      case _ i2 heq2 =>
        have hp1 := timesPermutation_setLRU n ls i2 hperm (findHit_some n ls _ i2 heq2).1
        split at h
        · cases h
        case _ sB e1 heq3 =>
          have hp2 := timesPermutation_findEvict n _ _ sB e1 heq3 hp1
          split at h
          · rw [Option.some_inj] at h; subst h
            exact timesPermutation_fillBlock n sB e1 _ hp2
          · rw [Option.some_inj] at h; subst h
            exact hp2
      case _ heq2 =>
        split at h
        · cases h
        case _ sB e1 heq3 =>
          have hp2 := timesPermutation_findEvict n _ _ sB e1 heq3 hperm
          split at h
          case _ f1 heq4 =>
            have hp3 := timesPermutation_fillBlock n sB e1 f1 hp2
            split at h
            · cases h
            case _ sD e2 heq5 =>
              have hp4 := timesPermutation_findEvict n _ _ sD e2 heq5 hp3
              split at h
              · rw [Option.some_inj] at h; subst h
                exact timesPermutation_fillBlock n sD e2 _ hp4
              · rw [Option.some_inj] at h; subst h
                exact hp4
          case _ heq4 =>
            rw [Option.some_inj] at h; subst h
            exact hp2

/-- Every reachable state satisfies the recency-permutation invariant. -/
theorem timesPermutation_reachable (n : Nat) (ls : Nat → CacheLine)
    (h : Reachable n ls) : timesPermutation n ls := by
  induction h with
  | init ls0 => exact timesPermutation_initLines n ls0
  | step ls mem address r _ hget ih =>
    exact timesPermutation_cacheGet n mem ls address r hget ih

/-! ## Symbolic evaluation of the non-crossing paths of `cache_get` -/

theorem cacheGet_hit (n : Nat) (mem : Nat → Option (Nat → Nat))
    (ls : Nat → CacheLine) (a i : Nat) (hoff : a % 64 + 8 ≤ 64)
    (hhit : findHit n ls (a / 64) = some i) :
    cacheGet n mem ls a = some
      { ret := 1,
        value := some (reverse_endian (cache_get_byElem zeroBuf
          (fun k => ((setLRU n ls i) i).cacheBlock (a % 64 + k)) 8 0)),
        state := setLRU n ls i, memReads := [] } := by
  unfold cacheGet sizeOfBlock
  simp only [address_decomposer_eq]
  rw [if_pos hoff, hhit]

theorem cacheGet_miss (n : Nat) (mem : Nat → Option (Nat → Nat))
    (ls : Nat → CacheLine) (a : Nat) (ls' : Nat → CacheLine) (e : Nat)
    (f : Nat → Nat) (hoff : a % 64 + 8 ≤ 64)
    (hmiss : findHit n ls (a / 64) = none)
    (hev : findEvict n ls (a / 64) = some (ls', e))
    (hmem : mem (a - a % 64) = some f) :
    cacheGet n mem ls a = some
      { ret := 1,
        value := some (reverse_endian (cache_get_byElem zeroBuf
          (fun k => ((fillBlock ls' e f) e).cacheBlock (a % 64 + k)) 8 0)),
        state := fillBlock ls' e f, memReads := [a - a % 64] } := by
  unfold cacheGet sizeOfBlock
  simp only [address_decomposer_eq]
  rw [if_pos hoff, hmiss, hev, hmem]

theorem cacheGet_missFail (n : Nat) (mem : Nat → Option (Nat → Nat))
    (ls : Nat → CacheLine) (a : Nat) (ls' : Nat → CacheLine) (e : Nat)
    (hoff : a % 64 + 8 ≤ 64)
    (hmiss : findHit n ls (a / 64) = none)
    (hev : findEvict n ls (a / 64) = some (ls', e))
    (hmem : mem (a - a % 64) = none) :
    cacheGet n mem ls a = some
      { ret := 0, value := none, state := ls', memReads := [a - a % 64] } := by
  unfold cacheGet sizeOfBlock
  simp only [address_decomposer_eq]
  rw [if_pos hoff, hmiss, hev, hmem]

/-! ## Evaluation helpers for a two-line cache -/

theorem findHit_two (ls : Nat → CacheLine) (t : Nat) :
    findHit 2 ls t =
      if ((ls 0).valid && ((ls 0).tag == t)) = true then some 0
      else if ((ls 1).valid && ((ls 1).tag == t)) = true then some 1
      else none := by
  unfold findHit
  rw [show List.range 2 = [0, 1] from rfl]
  rcases h0 : (ls 0).valid && ((ls 0).tag == t) with _ | _ <;>
    rcases h1 : (ls 1).valid && ((ls 1).tag == t) with _ | _ <;>
      simp [List.find?, h0, h1]

theorem lastMaxTime_two (ls : Nat → CacheLine) :
    lastMaxTime 2 ls =
      if (ls 1).time = 1 then some 1
      else if (ls 0).time = 1 then some 0
      else none := by
  unfold lastMaxTime
  rw [show List.range 2 = [0, 1] from rfl]
  simp only [List.foldl_cons, List.foldl_nil]

theorem cacheGet_crossBothMissSecondFail (n : Nat)
    (mem : Nat → Option (Nat → Nat)) (ls : Nat → CacheLine) (a : Nat)
    (sB : Nat → CacheLine) (e1 : Nat) (f1 : Nat → Nat)
    (sD : Nat → CacheLine) (e2 : Nat)
    (hoff : ¬ (a % 64 + 8 ≤ 64))
    (hm1 : findHit n ls (a / 64) = none)
    (hm2 : findHit n ls ((a + (64 - a % 64)) % 2 ^ 64 / 64) = none)
    (hev1 : findEvict n ls (a / 64) = some (sB, e1))
    (hmem1 : mem (a - a % 64) = some f1)
    (hev2 : findEvict n (fillBlock sB e1 f1)
      ((a + (64 - a % 64)) % 2 ^ 64 / 64) = some (sD, e2))
    (hmem2 : mem ((a + (64 - a % 64)) % 2 ^ 64 -
      ((a + (64 - a % 64)) % 2 ^ 64) % 64) = none) :
    cacheGet n mem ls a = some
      { ret := 0, value := none, state := sD,
        memReads := [a - a % 64, (a + (64 - a % 64)) % 2 ^ 64 -
          ((a + (64 - a % 64)) % 2 ^ 64) % 64] } := by
  unfold cacheGet sizeOfBlock
  simp only [address_decomposer_eq]
  rw [if_neg hoff]
  simp only [hm1, hm2, hev1, hmem1, hev2, hmem2]

/-! ## The claims -/

/-- C8: address decomposition is the pure function
`address ↦ (address & 63, address >> 6)`, i.e. `(address mod 64, address div 64)`;
the parts recombine to the address and the offset is below 64. -/
theorem claim_C8_address_decomposer (a : Nat) :
    address_decomposer a = (a % 64, a / 64) ∧
    (address_decomposer a).1 = a &&& 63 ∧
    (address_decomposer a).2 = a >>> 6 ∧
    (address_decomposer a).2 * 64 + (address_decomposer a).1 = a ∧
    (address_decomposer a).1 < 64 := by
  have h := address_decomposer_eq a
  refine ⟨h, ?_, ?_, ?_, ?_⟩
  · rw [h]; exact (Nat.and_pow_two_sub_one_eq_mod a 6).symm
  · rw [h]; exact (Nat.shiftRight_eq_div_pow a 6).symm
  · rw [h]; omega
  · rw [h]; omega

/-- C7: after `setLRU` for line `i` (in a state satisfying the recency
permutation invariant), line `i`'s `time` is 0, every other line whose
`time` was strictly below line `i`'s old `time` is incremented by 1, lines
with greater `time` are unchanged, and relative order among the other
lines is preserved. -/
theorem claim_C7_setLRU_recency (n : Nat) (ls : Nat → CacheLine) (i : Nat)
    (hperm : timesPermutation n ls) (hi : i < n) :
    ((setLRU n ls i) i).time = 0 ∧
    (∀ j, j < n → j ≠ i →
      ((ls j).time < (ls i).time → ((setLRU n ls i) j).time = (ls j).time + 1) ∧
      ((ls i).time < (ls j).time → ((setLRU n ls i) j).time = (ls j).time)) ∧
    (∀ j k, j < n → k < n → j ≠ i → k ≠ i → (ls j).time < (ls k).time →
      ((setLRU n ls i) j).time < ((setLRU n ls i) k).time) := by
  obtain ⟨hb, hinj, hsurj⟩ := hperm
  refine ⟨?_, fun j hj hji => ⟨fun hlt => ?_, fun hgt => ?_⟩, fun j k hj hk hji hki hlt => ?_⟩
  · rw [setLRU_time]
    have hc : ¬ (i < n ∧ (ls i).time < (ls i).time) := fun hh => Nat.lt_irrefl _ hh.2
    rw [if_neg hc, if_pos rfl]
  · rw [setLRU_time, if_pos ⟨hj, hlt⟩]
  · rw [setLRU_time]
    have hc : ¬ (j < n ∧ (ls j).time < (ls i).time) := fun hh => by omega
    rw [if_neg hc, if_neg hji]
  · rw [setLRU_time_eq_bump n ls i ⟨hb, hinj, hsurj⟩ hi j hj,
        setLRU_time_eq_bump n ls i ⟨hb, hinj, hsurj⟩ hi k hk]
    have hjne : (ls j).time ≠ (ls i).time := fun h => hji (hinj j hj i hi h)
    have hkne : (ls k).time ≠ (ls i).time := fun h => hki (hinj k hk i hi h)
    unfold bump
    split_ifs <;> omega

theorem claim_C7_setLRU_recency_witness :
    ((setLRU 2 (fun j => CacheLine.mk (1 - j) false 0 (fun _ => 0)) 0) 0).time = 0 ∧
    (∀ j, j < 2 → j ≠ 0 →
      (((fun j => CacheLine.mk (1 - j) false 0 (fun _ => 0)) j).time <
        ((fun j => CacheLine.mk (1 - j) false 0 (fun _ => 0)) 0).time →
        ((setLRU 2 (fun j => CacheLine.mk (1 - j) false 0 (fun _ => 0)) 0) j).time =
        ((fun j => CacheLine.mk (1 - j) false 0 (fun _ => 0)) j).time + 1) ∧
      (((fun j => CacheLine.mk (1 - j) false 0 (fun _ => 0)) 0).time <
        ((fun j => CacheLine.mk (1 - j) false 0 (fun _ => 0)) j).time →
        ((setLRU 2 (fun j => CacheLine.mk (1 - j) false 0 (fun _ => 0)) 0) j).time =
        ((fun j => CacheLine.mk (1 - j) false 0 (fun _ => 0)) j).time)) ∧
    (∀ j k, j < 2 → k < 2 → j ≠ 0 → k ≠ 0 →
      ((fun j => CacheLine.mk (1 - j) false 0 (fun _ => 0)) j).time <
      ((fun j => CacheLine.mk (1 - j) false 0 (fun _ => 0)) k).time →
      ((setLRU 2 (fun j => CacheLine.mk (1 - j) false 0 (fun _ => 0)) 0) j).time <
      ((setLRU 2 (fun j => CacheLine.mk (1 - j) false 0 (fun _ => 0)) 0) k).time) :=
  claim_C7_setLRU_recency 2
    (fun j => CacheLine.mk (1 - j) false 0 (fun _ => 0)) 0 (by decide) (by decide)

/-- C3: every state reachable from initialization by any sequence of
`cache_get` calls (hits, misses, failed backing reads included) has `time`
values forming a permutation of `{0, ..., n-1}`. -/
theorem claim_C3_recency_invariant (n : Nat) (ls : Nat → CacheLine)
    (h : Reachable n ls) : timesPermutation n ls :=
  timesPermutation_reachable n ls h

theorem claim_C3_recency_invariant_witness :
    timesPermutation 2 (initLines 2 (fun _ => default)) :=
  claim_C3_recency_invariant 2 (initLines 2 (fun _ => default))
    (Reachable.init (fun _ => default))

/-- C9: a non-crossing request that hits (some line is valid with the
matching tag) returns 1, performs no backing-memory read, and leaves every
line's `valid`, `tag` and block bytes unchanged (only `time` may move). -/
theorem claim_C9_hit_frame (n : Nat) (mem : Nat → Option (Nat → Nat))
    (ls : Nat → CacheLine) (a i : Nat) (hoff : a % 64 + 8 ≤ 64)
    (hi : i < n) (hv : (ls i).valid = true) (ht : (ls i).tag = a / 64) :
    ∃ j r, findHit n ls (a / 64) = some j ∧ cacheGet n mem ls a = some r ∧
      r.ret = 1 ∧ r.memReads = [] ∧
      (∀ k, (r.state k).valid = (ls k).valid ∧ (r.state k).tag = (ls k).tag ∧
        (r.state k).cacheBlock = (ls k).cacheBlock) := by
  obtain ⟨j, hj⟩ := findHit_isSome n ls (a / 64) i hi hv ht
  refine ⟨j, _, hj, cacheGet_hit n mem ls a j hoff hj, rfl, rfl, fun k => ?_⟩
  exact ⟨setLRU_valid n ls j k, setLRU_tag n ls j k, setLRU_cacheBlock n ls j k⟩

theorem claim_C9_hit_frame_witness :
    ∃ j r, findHit 1 (fun _ => ⟨0, true, 0, fun k => k⟩) (0 / 64) = some j ∧
      cacheGet 1 (fun _ => none) (fun _ => ⟨0, true, 0, fun k => k⟩) 0 = some r ∧
      r.ret = 1 ∧ r.memReads = [] ∧
      (∀ k, (r.state k).valid = ((fun _ => (⟨0, true, 0, fun k => k⟩ : CacheLine)) k).valid ∧
        (r.state k).tag = ((fun _ => (⟨0, true, 0, fun k => k⟩ : CacheLine)) k).tag ∧
        (r.state k).cacheBlock = ((fun _ => (⟨0, true, 0, fun k => k⟩ : CacheLine)) k).cacheBlock) :=
  claim_C9_hit_frame 1 (fun _ => none) (fun _ => ⟨0, true, 0, fun k => k⟩) 0 0
    (by decide) (by decide) rfl rfl

/-- C1: the code bug behind the cross-block claim.  At address 60 (offset
60, crossing into the next block) on a fresh two-line cache whose backing
memory always succeeds and stores byte `a + i` at block `a`, the returned
value is exactly the reverse-endian decode of bytes `[60, 64)` of the first
block followed by bytes `[0, 4)` of the next block — but `cache_get`
returns 0, not 1: the crossing branch falls through to the final
`return 0`. -/
theorem claim_C1_crossing_returns_zero :
    ((cacheGet 2 (fun a => some (fun i => a + i))
        (initLines 2 (fun _ => default)) 60).map (fun r => (r.ret, r.value))) =
      some (0, some (reverse_endian (fun j => 60 + j))) := by decide

/-- C2: the same bug refutes the round-trip claim for crossing addresses.
At address 124 (offset 60) with backing memory holding byte `a + i` at
block `a`, both the first call (double miss) and the repeated call (double
hit, no backing reads) produce the identical correct value, but both
return 0 instead of 1. -/
theorem claim_C2_roundtrip_crossing_returns_zero :
    ((cacheGet 2 (fun a => some (fun i => a + i))
        (initLines 2 (fun _ => default)) 124).bind (fun r1 =>
      (cacheGet 2 (fun a => some (fun i => a + i)) r1.state 124).map (fun r2 =>
        (r1.ret, r1.value, r2.ret, r2.value, r2.memReads)))) =
      some (0, some (reverse_endian (fun j => 124 + j)), 0,
        some (reverse_endian (fun j => 124 + j)), []) := by decide

/-- C5 counterexample: the claim asserts the evicted line's tag equals the
requested tag.  At address `2 ^ 38` (tag `2 ^ 32`) on a fresh two-line
cache with an always-failing backing memory, the call returns 0 but no
line's tag equals the requested tag `2 ^ 38 / 64 = 2 ^ 32`: the 32-bit
`tag` field stored `2 ^ 32 % 2 ^ 32 = 0`. -/
theorem claim_C5_counterexample :
    ((cacheGet 2 (fun _ => none) (initLines 2 (fun _ => default)) (2 ^ 38)).map
      (fun r => (r.ret, decide ((r.state 0).tag = 2 ^ 38 / 64),
        decide ((r.state 1).tag = 2 ^ 38 / 64)))) =
      some (0, false, false) := by decide

/-- C5 (amended): when the backing read fails on a non-crossing miss,
`cache_get` returns 0 with `*value` unassigned, yet the evicted line keeps
the state written before the read attempt — its tag equals the requested
tag reduced modulo `2 ^ 32` (the 32-bit tag field), `valid = 1`,
`recency = 0` — and the permutation invariant still holds; when the
requested tag fits in 32 bits, a subsequent `get` for that same tag hits
(returns 1 with no backing read) instead of re-fetching. -/
theorem claim_C5_failed_fill_state (n : Nat) (mem : Nat → Option (Nat → Nat))
    (ls : Nat → CacheLine) (a : Nat)
    (hperm : timesPermutation n ls) (hn : 0 < n)
    (hoff : a % 64 + 8 ≤ 64)
    (hmiss : findHit n ls (a / 64) = none)
    (hmem : mem (a - a % 64) = none) :
    ∃ ls' e, findEvict n ls (a / 64) = some (ls', e) ∧
      cacheGet n mem ls a = some
        { ret := 0, value := none, state := ls', memReads := [a - a % 64] } ∧
      (ls' e).tag = a / 64 % 2 ^ 32 ∧ (ls' e).valid = true ∧ (ls' e).time = 0 ∧
      timesPermutation n ls' ∧
      (a / 64 < 2 ^ 32 → ∀ mem2, ∃ r2, cacheGet n mem2 ls' a = some r2 ∧
        r2.ret = 1 ∧ r2.memReads = []) := by
  obtain ⟨ls', e, hev, -⟩ := findEvict_some n ls (a / 64) hperm hn
  obtain ⟨hlast, he, -⟩ := findEvict_dest n ls (a / 64) ls' e hev
  have hlt := (lastMaxTime_spec n ls e hlast).1
  refine ⟨ls', e, hev, cacheGet_missFail n mem ls a ls' e hoff hmiss hev hmem,
    by rw [he], by rw [he], by rw [he],
    timesPermutation_findEvict n ls _ ls' e hev hperm, fun htag mem2 => ?_⟩
  have hv : (ls' e).valid = true := by rw [he]
  have htg : (ls' e).tag = a / 64 := by
    rw [he]
    exact Nat.mod_eq_of_lt htag
  obtain ⟨j, hj⟩ := findHit_isSome n ls' (a / 64) e hlt hv htg
  exact ⟨_, cacheGet_hit n mem2 ls' a j hoff hj, rfl, rfl⟩

theorem claim_C5_failed_fill_state_witness :
    ∃ ls' e, findEvict 2 (initLines 2 (fun _ => default)) (0 / 64) = some (ls', e) ∧
      cacheGet 2 (fun _ => none) (initLines 2 (fun _ => default)) 0 = some
        { ret := 0, value := none, state := ls', memReads := [0 - 0 % 64] } ∧
      (ls' e).tag = 0 / 64 % 2 ^ 32 ∧ (ls' e).valid = true ∧ (ls' e).time = 0 ∧
      timesPermutation 2 ls' ∧
      (0 / 64 < 2 ^ 32 → ∀ mem2, ∃ r2, cacheGet 2 mem2 ls' 0 = some r2 ∧
        r2.ret = 1 ∧ r2.memReads = []) :=
  claim_C5_failed_fill_state 2 (fun _ => none) (initLines 2 (fun _ => default)) 0
    (by decide) (by decide) (by decide) (by decide) rfl

/-- C6: on a crossing request where both halves miss, the first backing
read succeeds and the second fails, `cache_get` returns 0 without writing
`*value`, yet the line evicted for the first half stays committed: a
different line is chosen for the second half, and the first line keeps the
requested tag (mod `2 ^ 32`), `valid = 1`, and the freshly filled block
bytes — no rollback. -/
theorem claim_C6_cross_partial_failure (n : Nat)
    (mem : Nat → Option (Nat → Nat)) (ls : Nat → CacheLine) (a : Nat)
    (f1 : Nat → Nat) (hperm : timesPermutation n ls) (hn : 2 ≤ n)
    (hoff : ¬ (a % 64 + 8 ≤ 64))
    (hm1 : findHit n ls (a / 64) = none)
    (hm2 : findHit n ls ((a + (64 - a % 64)) % 2 ^ 64 / 64) = none)
    (hmem1 : mem (a - a % 64) = some f1)
    (hmem2 : mem ((a + (64 - a % 64)) % 2 ^ 64 -
      ((a + (64 - a % 64)) % 2 ^ 64) % 64) = none) :
    ∃ sB e1 sD e2, findEvict n ls (a / 64) = some (sB, e1) ∧
      findEvict n (fillBlock sB e1 f1)
        ((a + (64 - a % 64)) % 2 ^ 64 / 64) = some (sD, e2) ∧
      cacheGet n mem ls a = some
        { ret := 0, value := none, state := sD,
          memReads := [a - a % 64, (a + (64 - a % 64)) % 2 ^ 64 -
            ((a + (64 - a % 64)) % 2 ^ 64) % 64] } ∧
      e2 ≠ e1 ∧
      (sD e1).tag = a / 64 % 2 ^ 32 ∧ (sD e1).valid = true ∧
      (∀ k, k < 64 → (sD e1).cacheBlock k = f1 k % 256) := by
  have hn0 : 0 < n := by omega
  obtain ⟨sB, e1, hev1, -⟩ := findEvict_some n ls (a / 64) hperm hn0
  have hpermB := timesPermutation_findEvict n ls _ sB e1 hev1 hperm
  have hpermC := timesPermutation_fillBlock n sB e1 f1 hpermB
  obtain ⟨sD, e2, hev2, -⟩ :=
    findEvict_some n (fillBlock sB e1 f1) ((a + (64 - a % 64)) % 2 ^ 64 / 64) hpermC hn0
  obtain ⟨-, he1, -⟩ := findEvict_dest n ls _ sB e1 hev1
  obtain ⟨hlast2, -, -⟩ := findEvict_dest n (fillBlock sB e1 f1) _ sD e2 hev2
  have he2spec := lastMaxTime_spec n (fillBlock sB e1 f1) e2 hlast2
  have hne : e2 ≠ e1 := by
    intro hcontra
    have h1 : ((fillBlock sB e1 f1) e1).time = 0 := by rw [fillBlock_time, he1]
    rw [hcontra, h1] at he2spec
    omega
  obtain ⟨hfv, hft, hfb⟩ := findEvict_frame n (fillBlock sB e1 f1) _ sD e2 hev2 e1 (Ne.symm hne)
  refine ⟨sB, e1, sD, e2, hev1, hev2,
    cacheGet_crossBothMissSecondFail n mem ls a sB e1 f1 sD e2
      hoff hm1 hm2 hev1 hmem1 hev2 hmem2, hne, ?_, ?_, fun k hk => ?_⟩
  · rw [hft, fillBlock_tag, he1]
  · rw [hfv, fillBlock_valid, he1]
  · rw [hfb]
    exact fillBlock_cacheBlock_self sB e1 f1 k hk

theorem claim_C6_cross_partial_failure_witness :
    ∃ sB e1 sD e2,
      findEvict 2 (initLines 2 (fun _ => default)) (60 / 64) = some (sB, e1) ∧
      findEvict 2 (fillBlock sB e1 (fun i => i))
        ((60 + (64 - 60 % 64)) % 2 ^ 64 / 64) = some (sD, e2) ∧
      cacheGet 2 (fun x => if x = 0 then some (fun i => i) else none)
        (initLines 2 (fun _ => default)) 60 = some
        { ret := 0, value := none, state := sD,
          memReads := [60 - 60 % 64, (60 + (64 - 60 % 64)) % 2 ^ 64 -
            ((60 + (64 - 60 % 64)) % 2 ^ 64) % 64] } ∧
      e2 ≠ e1 ∧
      (sD e1).tag = 60 / 64 % 2 ^ 32 ∧ (sD e1).valid = true ∧
      (∀ k, k < 64 → (sD e1).cacheBlock k = (fun i => i) k % 256) :=
  claim_C6_cross_partial_failure 2
    (fun x => if x = 0 then some (fun i => i) else none)
    (initLines 2 (fun _ => default)) 60 (fun i => i)
    (by decide) (by decide) (by decide) (by decide) (by decide)
    rfl rfl

/-! ## Fresh two-line-cache scenario helpers -/

theorem initLines_lt (n : Nat) (ls0 : Nat → CacheLine) (j : Nat) (hj : j < n) :
    initLines n ls0 j = { ls0 j with time := j, valid := false, tag := 0 } := by
  unfold initLines; rw [if_pos hj]

theorem findEvict_of_lastMaxTime (n : Nat) (ls : Nat → CacheLine) (t e : Nat)
    (h : lastMaxTime n ls = some e) :
    ∃ ls', findEvict n ls t = some (ls', e) := by
  unfold findEvict; rw [h]; exact ⟨_, rfl⟩

theorem findHit_two_none (ls : Nat → CacheLine) (t : Nat)
    (h0 : ((ls 0).valid && ((ls 0).tag == t)) = false)
    (h1 : ((ls 1).valid && ((ls 1).tag == t)) = false) :
    findHit 2 ls t = none := by
  rw [findHit_two, h0, h1]
  simp

theorem findHit_two_one (ls : Nat → CacheLine) (t : Nat)
    (h0 : ((ls 0).valid && ((ls 0).tag == t)) = false)
    (h1 : ((ls 1).valid && ((ls 1).tag == t)) = true) :
    findHit 2 ls t = some 1 := by
  rw [findHit_two, h0, h1]
  simp

/-- C10: line tags are truncated modulo `2 ^ 32`.  For a fresh two-line
cache and an address `64 * t` with `t ≥ 2 ^ 32` whose backing read
succeeds, the first `get` installs line 1 with stored tag `t % 2 ^ 32`;
repeating the same request finds no hit and re-reads backing memory, while
a request for any non-crossing address of tag `t % 2 ^ 32` hits that very
line and is served its block bytes. -/
theorem claim_C10_tag_truncation (t : Nat) (ht : 2 ^ 32 ≤ t)
    (mem : Nat → Option (Nat → Nat)) (f : Nat → Nat)
    (hmem : mem (64 * t) = some f) (ls0 : Nat → CacheLine)
    (o : Nat) (ho : o + 8 ≤ 64) :
    ∃ r1, cacheGet 2 mem (initLines 2 ls0) (64 * t) = some r1 ∧
      r1.ret = 1 ∧
      (r1.state 1).valid = true ∧ (r1.state 1).tag = t % 2 ^ 32 ∧
      findHit 2 r1.state t = none ∧
      (∃ r2, cacheGet 2 mem r1.state (64 * t) = some r2 ∧
        r2.memReads = [64 * t]) ∧
      (∃ r3, findHit 2 r1.state (t % 2 ^ 32) = some 1 ∧
        cacheGet 2 mem r1.state (64 * (t % 2 ^ 32) + o) = some r3 ∧
        r3.ret = 1 ∧ r3.memReads = [] ∧
        r3.value = some (reverse_endian (cache_get_byElem zeroBuf
          (fun k => (r1.state 1).cacheBlock (o + k)) 8 0))) := by
  have hmodt : 64 * t % 64 = 0 := Nat.mul_mod_right 64 t
  have hdivt : 64 * t / 64 = t := Nat.mul_div_cancel_left t (by norm_num)
  have hsub : 64 * t - 64 * t % 64 = 64 * t := by omega
  have htne : t % 2 ^ 32 ≠ t := by
    have := Nat.mod_lt t (show 0 < 2 ^ 32 by norm_num)
    omega
  have h00 := initLines_lt 2 ls0 0 (by omega)
  have h01 := initLines_lt 2 ls0 1 (by omega)
  -- the first request misses
  have hmiss0 : findHit 2 (initLines 2 ls0) t = none := by
    apply findHit_two_none
    · rw [h00]; rfl
    · rw [h01]; rfl
  -- and evicts line 1
  have hlm0 : lastMaxTime 2 (initLines 2 ls0) = some 1 := by
    rw [lastMaxTime_two, h01]
    rfl
  obtain ⟨ls1', hev0⟩ := findEvict_of_lastMaxTime 2 (initLines 2 ls0) t 1 hlm0
  obtain ⟨-, hee, hoth⟩ := findEvict_dest 2 (initLines 2 ls0) t ls1' 1 hev0
  have hr1 : cacheGet 2 mem (initLines 2 ls0) (64 * t) = some
      { ret := 1,
        value := some (reverse_endian (cache_get_byElem zeroBuf
          (fun k => ((fillBlock ls1' 1 f) 1).cacheBlock (64 * t % 64 + k)) 8 0)),
        state := fillBlock ls1' 1 f, memReads := [64 * t - 64 * t % 64] } := by
    apply cacheGet_miss 2 mem (initLines 2 ls0) (64 * t) ls1' 1 f
    · omega
    · rw [hdivt]; exact hmiss0
    · rw [hdivt]; exact hev0
    · rw [hsub]; exact hmem
  -- pointwise facts about the installed state
  have hs1v1 : ((fillBlock ls1' 1 f) 1).valid = true := by
    rw [fillBlock_valid, hee]
  have hs1t1 : ((fillBlock ls1' 1 f) 1).tag = t % 2 ^ 32 := by
    rw [fillBlock_tag, hee]
  have hs1time1 : ((fillBlock ls1' 1 f) 1).time = 0 := by
    rw [fillBlock_time, hee]
  have hls10 : ls1' 0 = { initLines 2 ls0 0 with time := (initLines 2 ls0 0).time + 1 } := by
    rw [hoth 0 (by omega)]
    rw [if_pos ⟨by omega, by rw [h00, h01]; exact Nat.zero_lt_one⟩]
  have hs1v0 : ((fillBlock ls1' 1 f) 0).valid = false := by
    rw [fillBlock_valid, hls10]
    show (initLines 2 ls0 0).valid = false
    rw [h00]
  have hs1time0 : ((fillBlock ls1' 1 f) 0).time = 1 := by
    rw [fillBlock_time, hls10]
    show (initLines 2 ls0 0).time + 1 = 1
    rw [h00]
  -- the repeated request finds no hit
  have hmiss1 : findHit 2 (fillBlock ls1' 1 f) t = none := by
    apply findHit_two_none
    · rw [hs1v0]; rfl
    · rw [hs1v1, hs1t1]
      simp only [Bool.true_and, beq_eq_false_iff_ne, ne_eq]
      omega
  -- and re-reads backing memory
  have hlm1 : lastMaxTime 2 (fillBlock ls1' 1 f) = some 0 := by
    rw [lastMaxTime_two, hs1time1, hs1time0]
    norm_num
  obtain ⟨ls2', hev1⟩ := findEvict_of_lastMaxTime 2 (fillBlock ls1' 1 f) t 0 hlm1
  have hr2 : cacheGet 2 mem (fillBlock ls1' 1 f) (64 * t) = some
      { ret := 1,
        value := some (reverse_endian (cache_get_byElem zeroBuf
          (fun k => ((fillBlock ls2' 0 f) 0).cacheBlock (64 * t % 64 + k)) 8 0)),
        state := fillBlock ls2' 0 f, memReads := [64 * t - 64 * t % 64] } := by
    apply cacheGet_miss 2 mem (fillBlock ls1' 1 f) (64 * t) ls2' 0 f
    · omega
    · rw [hdivt]; exact hmiss1
    · rw [hdivt]; exact hev1
    · rw [hsub]; exact hmem
  -- the aliased tag hits line 1
  have hhit3 : findHit 2 (fillBlock ls1' 1 f) (t % 2 ^ 32) = some 1 := by
    apply findHit_two_one
    · rw [hs1v0]; rfl
    · rw [hs1v1, hs1t1]
      simp
  have hmod3 : (64 * (t % 2 ^ 32) + o) % 64 = o := by
    rw [Nat.mul_add_mod]; exact Nat.mod_eq_of_lt (by omega)
  have hdiv3 : (64 * (t % 2 ^ 32) + o) / 64 = t % 2 ^ 32 := by
    rw [Nat.mul_add_div (by norm_num), Nat.div_eq_of_lt (show o < 64 by omega)]
    omega
  have hr3 : cacheGet 2 mem (fillBlock ls1' 1 f) (64 * (t % 2 ^ 32) + o) = some
      { ret := 1,
        value := some (reverse_endian (cache_get_byElem zeroBuf
          (fun k => ((setLRU 2 (fillBlock ls1' 1 f) 1) 1).cacheBlock
            ((64 * (t % 2 ^ 32) + o) % 64 + k)) 8 0)),
        state := setLRU 2 (fillBlock ls1' 1 f) 1, memReads := [] } := by
    apply cacheGet_hit 2 mem (fillBlock ls1' 1 f) (64 * (t % 2 ^ 32) + o) 1
    · rw [hmod3]; omega
    · rw [hdiv3]; exact hhit3
  refine ⟨_, hr1, rfl, hs1v1, hs1t1, hmiss1, ⟨_, hr2, ?_⟩, ⟨_, hhit3, hr3, rfl, rfl, ?_⟩⟩
  · rw [hsub]
  · show some _ = some _
    rw [setLRU_cacheBlock, hmod3]

theorem claim_C10_tag_truncation_witness :
    ∃ r1, cacheGet 2 (fun a => some (fun i => a + i))
        (initLines 2 (fun _ => default)) (64 * 2 ^ 32) = some r1 ∧
      r1.ret = 1 ∧
      (r1.state 1).valid = true ∧ (r1.state 1).tag = 2 ^ 32 % 2 ^ 32 ∧
      findHit 2 r1.state (2 ^ 32) = none ∧
      (∃ r2, cacheGet 2 (fun a => some (fun i => a + i)) r1.state (64 * 2 ^ 32) = some r2 ∧
        r2.memReads = [64 * 2 ^ 32]) ∧
      (∃ r3, findHit 2 r1.state (2 ^ 32 % 2 ^ 32) = some 1 ∧
        cacheGet 2 (fun a => some (fun i => a + i)) r1.state
          (64 * (2 ^ 32 % 2 ^ 32) + 0) = some r3 ∧
        r3.ret = 1 ∧ r3.memReads = [] ∧
        r3.value = some (reverse_endian (cache_get_byElem zeroBuf
          (fun k => (r1.state 1).cacheBlock (0 + k)) 8 0))) :=
  claim_C10_tag_truncation (2 ^ 32) (by norm_num)
    (fun a => some (fun i => a + i)) (fun i => 64 * 2 ^ 32 + i) rfl
    (fun _ => default) 0 (by norm_num)

/-- C4: on a two-line cache, after requesting three distinct 32-bit tags
T1, T2, T3 in order from a fresh cache (T1 never re-touched, backing reads
succeeding), the request for T3 misses and the line selected for eviction
is the line holding T1; and in general `findEvict`'s victim is the unique
line whose recency equals `numLines - 1`. -/
theorem claim_C4_lru_eviction (t1 t2 t3 : Nat)
    (h1 : t1 < 2 ^ 32) (h2 : t2 < 2 ^ 32) (h3 : t3 < 2 ^ 32)
    (h12 : t1 ≠ t2) (h13 : t1 ≠ t3) (h23 : t2 ≠ t3)
    (mem : Nat → Option (Nat → Nat)) (f : Nat → Nat → Nat)
    (hmem : ∀ a, mem a = some (f a)) (ls0 : Nat → CacheLine) :
    (∃ r1 r2 ls' e,
      cacheGet 2 mem (initLines 2 ls0) (64 * t1) = some r1 ∧
      cacheGet 2 mem r1.state (64 * t2) = some r2 ∧
      findHit 2 r2.state t3 = none ∧
      findEvict 2 r2.state t3 = some (ls', e) ∧
      (r2.state e).valid = true ∧ (r2.state e).tag = t1 ∧
      (r2.state e).time = 2 - 1) ∧
    (∀ n st tg st' v, timesPermutation n st →
      findEvict n st tg = some (st', v) →
      (st v).time = n - 1 ∧ ∀ j, j < n → (st j).time = n - 1 → j = v) := by
  have hmod1 : t1 % 2 ^ 32 = t1 := Nat.mod_eq_of_lt h1
  have hmod2 : t2 % 2 ^ 32 = t2 := Nat.mod_eq_of_lt h2
  constructor
  · have hdiv1 : 64 * t1 / 64 = t1 := Nat.mul_div_cancel_left t1 (by norm_num)
    have hdiv2 : 64 * t2 / 64 = t2 := Nat.mul_div_cancel_left t2 (by norm_num)
    have hmodt1 : 64 * t1 % 64 = 0 := Nat.mul_mod_right 64 t1
    have hmodt2 : 64 * t2 % 64 = 0 := Nat.mul_mod_right 64 t2
    have h00 := initLines_lt 2 ls0 0 (by omega)
    have h01 := initLines_lt 2 ls0 1 (by omega)
    -- request 1: miss, evicts line 1, installs T1 there
    have hmiss1 : findHit 2 (initLines 2 ls0) t1 = none := by
      apply findHit_two_none
      · rw [h00]; rfl
      · rw [h01]; rfl
    have hlm1 : lastMaxTime 2 (initLines 2 ls0) = some 1 := by
      rw [lastMaxTime_two, h01]
      rfl
    obtain ⟨lsA, hevA⟩ := findEvict_of_lastMaxTime 2 (initLines 2 ls0) t1 1 hlm1
    obtain ⟨-, heeA, hothA⟩ := findEvict_dest 2 (initLines 2 ls0) t1 lsA 1 hevA
    have hr1 : cacheGet 2 mem (initLines 2 ls0) (64 * t1) = some
        { ret := 1,
          value := some (reverse_endian (cache_get_byElem zeroBuf
            (fun k => ((fillBlock lsA 1 (f (64 * t1 - 64 * t1 % 64))) 1).cacheBlock
              (64 * t1 % 64 + k)) 8 0)),
          state := fillBlock lsA 1 (f (64 * t1 - 64 * t1 % 64)),
          memReads := [64 * t1 - 64 * t1 % 64] } := by
      apply cacheGet_miss 2 mem (initLines 2 ls0) (64 * t1) lsA 1
      · omega
      · rw [hdiv1]; exact hmiss1
      · rw [hdiv1]; exact hevA
      · exact hmem _
    have hsub1 : 64 * t1 - 64 * t1 % 64 = 64 * t1 := by omega
    -- the state after request 1
    have hAv1 : ((fillBlock lsA 1 (f (64 * t1 - 64 * t1 % 64))) 1).valid = true := by
      rw [fillBlock_valid, heeA]
    have hAt1 : ((fillBlock lsA 1 (f (64 * t1 - 64 * t1 % 64))) 1).tag = t1 := by
      rw [fillBlock_tag, heeA]
      exact hmod1
    have hAtime1 : ((fillBlock lsA 1 (f (64 * t1 - 64 * t1 % 64))) 1).time = 0 := by
      rw [fillBlock_time, heeA]
    have hlsA0 : lsA 0 =
        { initLines 2 ls0 0 with time := (initLines 2 ls0 0).time + 1 } := by
      rw [hothA 0 (by omega)]
      rw [if_pos ⟨by omega, by rw [h00, h01]; exact Nat.zero_lt_one⟩]
    have hAv0 : ((fillBlock lsA 1 (f (64 * t1 - 64 * t1 % 64))) 0).valid = false := by
      rw [fillBlock_valid, hlsA0]
      show (initLines 2 ls0 0).valid = false
      rw [h00]
    have hAtime0 : ((fillBlock lsA 1 (f (64 * t1 - 64 * t1 % 64))) 0).time = 1 := by
      rw [fillBlock_time, hlsA0]
      show (initLines 2 ls0 0).time + 1 = 1
      rw [h00]
    -- request 2: miss, evicts line 0, installs T2 there
    have hmiss2 : findHit 2 (fillBlock lsA 1 (f (64 * t1 - 64 * t1 % 64))) t2 = none := by
      apply findHit_two_none
      · rw [hAv0]; rfl
      · rw [hAv1, hAt1]
        simp only [Bool.true_and, beq_eq_false_iff_ne, ne_eq]
        exact h12
    have hlm2 : lastMaxTime 2 (fillBlock lsA 1 (f (64 * t1 - 64 * t1 % 64))) = some 0 := by
      rw [lastMaxTime_two, hAtime1, hAtime0]
      norm_num
    obtain ⟨lsB, hevB⟩ := findEvict_of_lastMaxTime 2
      (fillBlock lsA 1 (f (64 * t1 - 64 * t1 % 64))) t2 0 hlm2
    obtain ⟨-, heeB, hothB⟩ := findEvict_dest 2
      (fillBlock lsA 1 (f (64 * t1 - 64 * t1 % 64))) t2 lsB 0 hevB
    have hr2 : cacheGet 2 mem (fillBlock lsA 1 (f (64 * t1 - 64 * t1 % 64))) (64 * t2) = some
        { ret := 1,
          value := some (reverse_endian (cache_get_byElem zeroBuf
            (fun k => ((fillBlock lsB 0 (f (64 * t2 - 64 * t2 % 64))) 0).cacheBlock
              (64 * t2 % 64 + k)) 8 0)),
          state := fillBlock lsB 0 (f (64 * t2 - 64 * t2 % 64)),
          memReads := [64 * t2 - 64 * t2 % 64] } := by
      apply cacheGet_miss 2 mem _ (64 * t2) lsB 0
      · omega
      · rw [hdiv2]; exact hmiss2
      · rw [hdiv2]; exact hevB
      · exact hmem _
    -- the state after request 2: line 1 still holds T1, now least recent
    have hlsB1 : lsB 1 = { (fillBlock lsA 1 (f (64 * t1 - 64 * t1 % 64))) 1 with
        time := ((fillBlock lsA 1 (f (64 * t1 - 64 * t1 % 64))) 1).time + 1 } := by
      rw [hothB 1 (by omega)]
      rw [if_pos ⟨by omega, by rw [hAtime1, hAtime0]; exact Nat.zero_lt_one⟩]
    have hBv1 : ((fillBlock lsB 0 (f (64 * t2 - 64 * t2 % 64))) 1).valid = true := by
      rw [fillBlock_valid, hlsB1]
      show ((fillBlock lsA 1 (f (64 * t1 - 64 * t1 % 64))) 1).valid = true
      exact hAv1
    have hBt1 : ((fillBlock lsB 0 (f (64 * t2 - 64 * t2 % 64))) 1).tag = t1 := by
      rw [fillBlock_tag, hlsB1]
      show ((fillBlock lsA 1 (f (64 * t1 - 64 * t1 % 64))) 1).tag = t1
      exact hAt1
    have hBtime1 : ((fillBlock lsB 0 (f (64 * t2 - 64 * t2 % 64))) 1).time = 1 := by
      rw [fillBlock_time, hlsB1]
      show ((fillBlock lsA 1 (f (64 * t1 - 64 * t1 % 64))) 1).time + 1 = 1
      rw [hAtime1]
    have hBv0 : ((fillBlock lsB 0 (f (64 * t2 - 64 * t2 % 64))) 0).valid = true := by
      rw [fillBlock_valid, heeB]
    have hBt0 : ((fillBlock lsB 0 (f (64 * t2 - 64 * t2 % 64))) 0).tag = t2 := by
      rw [fillBlock_tag, heeB]
      exact hmod2
    -- request 3 misses, and the eviction victim is line 1 — T1's line
    have hmiss3 : findHit 2 (fillBlock lsB 0 (f (64 * t2 - 64 * t2 % 64))) t3 = none := by
      apply findHit_two_none
      · rw [hBv0, hBt0]
        simp only [Bool.true_and, beq_eq_false_iff_ne, ne_eq]
        exact h23
      · rw [hBv1, hBt1]
        simp only [Bool.true_and, beq_eq_false_iff_ne, ne_eq]
        exact h13
    have hlm3 : lastMaxTime 2 (fillBlock lsB 0 (f (64 * t2 - 64 * t2 % 64))) = some 1 := by
      rw [lastMaxTime_two, hBtime1]
      rfl
    obtain ⟨lsC, hevC⟩ := findEvict_of_lastMaxTime 2
      (fillBlock lsB 0 (f (64 * t2 - 64 * t2 % 64))) t3 1 hlm3
    exact ⟨_, _, lsC, 1, hr1, hr2, hmiss3, hevC, hBv1, hBt1, hBtime1⟩
  · intro n st tg st' v hperm hev
    obtain ⟨hlast, -, -⟩ := findEvict_dest n st tg st' v hev
    obtain ⟨hvlt, hvt⟩ := lastMaxTime_spec n st v hlast
    exact ⟨hvt, fun j hj hjt => hperm.2.1 j hj v hvlt (by rw [hjt, hvt])⟩

theorem claim_C4_lru_eviction_witness :
    (∃ r1 r2 ls' e,
      cacheGet 2 (fun a => some (fun i => a + i))
        (initLines 2 (fun _ => default)) (64 * 1) = some r1 ∧
      cacheGet 2 (fun a => some (fun i => a + i)) r1.state (64 * 2) = some r2 ∧
      findHit 2 r2.state 3 = none ∧
      findEvict 2 r2.state 3 = some (ls', e) ∧
      (r2.state e).valid = true ∧ (r2.state e).tag = 1 ∧
      (r2.state e).time = 2 - 1) ∧
    (∀ n st tg st' v, timesPermutation n st →
      findEvict n st tg = some (st', v) →
      (st v).time = n - 1 ∧ ∀ j, j < n → (st j).time = n - 1 → j = v) :=
  claim_C4_lru_eviction 1 2 3 (by norm_num) (by norm_num) (by norm_num)
    (by norm_num) (by norm_num) (by norm_num)
    (fun a => some (fun i => a + i)) (fun a i => a + i) (fun _ => rfl)
    (fun _ => default)

end CacheSim
